import Mathlib

/-!
# A streaming CSV line parser: `csv/general.go` and `csv/methods.go`

The parser object, the byte-at-a-time line reader `ReadLine`, the field
splitter `parseFields` and the two accessors are embedded as pure functions
with explicit state passing.  A stream is the finite list of bytes that the
reader has not delivered yet; each `r.Read(buffer)` on the one-byte buffer
delivers the head of that list, and on the empty list reports `0, io.EOF`
without touching the buffer.
-/

namespace CSV

/-- A byte of the stream (the code never does arithmetic on bytes). -/
abbrev Byte := Nat

/-- Byte value of the line feed. -/
abbrev NL : Byte := 10
/-- Byte value of the carriage return. -/
abbrev CR : Byte := 13
/-- Byte value of the double quote. -/
abbrev QUOTE : Byte := 34
/-- Byte value of the comma. -/
abbrev COMMA : Byte := 44

/-- The errors a call can return: `io.EOF` and the two package errors of
`general.go`. -/
inductive Error where
  | EOF
  | ErrQuote
  | ErrFieldCount
  deriving DecidableEq, Repr

/-- The struct `YourCSVParser` of `general.go`. -/
structure YourCSVParser where
  Line : List Byte
  Fields : List (List Byte)
  wasRead : Bool
  isEOF : Bool
  expectedFields : Int
  deriving DecidableEq, Repr

/-- The zero value `&YourCSVParser{}` that `main.go` starts from. -/
def YourCSVParser.empty : YourCSVParser :=
  { Line := [], Fields := [], wasRead := false, isEOF := false, expectedFields := 0 }

/-- The scan loop of `parseFields` (methods.go 100-116) over the remaining
bytes of the line.  It returns `fields` and `currentField` as they stand when
the loop is left; the `break` at an unquoted newline leaves `currentField`
as it is. -/
def parseLoop : List Byte → Bool → List (List Byte) → List Byte → List (List Byte) × List Byte
  | [], _, fields, currentField => (fields, currentField)
  | b :: rest, inQuote, fields, currentField =>
    if b = COMMA then
      if inQuote then parseLoop rest inQuote fields (currentField ++ [b])
      else parseLoop rest inQuote (fields ++ [currentField]) []
    else if b = NL ∧ inQuote = false then
      (fields ++ [currentField], currentField)
    else if b = QUOTE then parseLoop rest (!inQuote) fields currentField
    else parseLoop rest inQuote fields (currentField ++ [b])

/-- The field list that `parseFields` computes from a line
(methods.go 97-123). -/
def splitFields (line : List Byte) : List (List Byte) :=
  let scan := parseLoop line false [] []
  let fields := scan.1
  let currentField := scan.2
  let fields :=
    if currentField.length > 0 ∨ fields.length = 0 then fields ++ [currentField] else fields
  let fields :=
    if line.length > 0 ∧ line.get? (line.length - 1) = some COMMA then fields ++ [[]] else fields
  fields

/-- The method `parseFields` (methods.go 96-125): it overwrites `Fields` with the
split of `Line`. -/
def parseFields (p : YourCSVParser) : YourCSVParser :=
  { p with Fields := splitFields p.Line }

/-- What one call of `ReadLine` yields: the parser afterwards, the returned
text and error, and the bytes of the stream that were not read. -/
structure ReadResult where
  p : YourCSVParser
  text : List Byte
  err : Option Error
  rest : List Byte
  deriving DecidableEq, Repr

/-- The unquoted-newline branch of `ReadLine` (methods.go 34-44), entered with
`line` already extended by `currentField`. -/
def finishAtNewline (p : YourCSVParser) (line rest : List Byte) : ReadResult :=
  let p := parseFields { p with Line := line }
  if p.expectedFields = 0 then
    let p := { p with expectedFields := (p.Fields.length : Int) }
    let p := { p with wasRead := true }
    ⟨p, p.Line, none, rest⟩
  else if (p.Fields.length : Int) ≠ p.expectedFields then
    ⟨p, [], some Error.ErrFieldCount, rest⟩
  else
    let p := { p with wasRead := true }
    ⟨p, p.Line, none, rest⟩

/-- The code after the loop of `ReadLine` (methods.go 78-93), reached by the
`break` at a zero-byte read. -/
def finishAtEnd (p : YourCSVParser) (inQuote : Bool) (currentField line rest : List Byte) :
    ReadResult :=
  if inQuote then ⟨p, [], some Error.ErrQuote, rest⟩
  else
    let line := line ++ currentField
    let p := parseFields { p with Line := line }
    if p.expectedFields = 0 then
      let p := { p with expectedFields := (p.Fields.length : Int) }
      let p := { p with wasRead := true }
      let p := { p with isEOF := false }
      ⟨p, p.Line, none, rest⟩
    else if (p.Fields.length : Int) ≠ p.expectedFields then
      ⟨p, [], some Error.ErrFieldCount, rest⟩
    else
      let p := { p with wasRead := true }
      let p := { p with isEOF := false }
      ⟨p, p.Line, none, rest⟩

/-- The read loop of `ReadLine` (methods.go 14-76) on the unread bytes of the
stream, with the loop variables `inQuote`, `currentField` and `line`. -/
def readLoop (p : YourCSVParser) :
    List Byte → Bool → List Byte → List Byte → ReadResult
  | [], inQuote, currentField, line =>
    -- n == 0 and err == io.EOF
    if line.length = 0 then ⟨{ p with isEOF := true }, [], some Error.EOF, []⟩
    else finishAtEnd p inQuote currentField line []
  | char :: rest, inQuote, currentField, line =>
    if char = NL then
      if inQuote = false then finishAtNewline p (line ++ currentField) rest
      else readLoop p rest inQuote (currentField ++ [char]) line
    else if char = CR then
      match rest with
      | [] =>
        -- the lookahead read gives 0, io.EOF and leaves '\r' in the buffer
        ⟨p, [], some Error.EOF, []⟩
      | next :: rest2 =>
        if next = NL then readLoop p rest2 inQuote currentField line
        else readLoop p rest2 inQuote [] (line ++ currentField ++ [CR])
    else if char = COMMA then
      if inQuote = false then readLoop p rest inQuote [] (line ++ currentField ++ [COMMA])
      else readLoop p rest inQuote (currentField ++ [char]) line
    else if char = QUOTE then readLoop p rest (!inQuote) (currentField ++ [char]) line
    else readLoop p rest inQuote (currentField ++ [char]) line

/-- The method `ReadLine` (methods.go 7-94) on a stream given by its unread
bytes. -/
def ReadLine (p : YourCSVParser) (stream : List Byte) : ReadResult :=
  readLoop p stream false [] []

/-- The method `GetNumberOfFields` (methods.go 127-132). -/
def GetNumberOfFields (p : YourCSVParser) : Int :=
  if p.wasRead = false ∧ p.isEOF = false then 0 else (p.Fields.length : Int)

/-- The method `GetField` (methods.go 134-139): the returned text and error. -/
def GetField (p : YourCSVParser) (n : Int) : List Byte × Option Error :=
  if p.wasRead = false ∨ n < 0 ∨ n ≥ (p.Fields.length : Int) then
    ([], some Error.ErrFieldCount)
  else (p.Fields.getD n.toNat [], none)

/-- Whether the bytes `s`, met by the reader in quote state `inQuote`, are the
rest of a complete record: no carriage return, every newline inside quotes,
and the quotes closed at the end. -/
def completeFrom (inQuote : Bool) : List Byte → Bool
  | [] => !inQuote
  | b :: s =>
    if b = CR then false
    else if b = QUOTE then completeFrom (!inQuote) s
    else if b = NL then inQuote && completeFrom inQuote s
    else completeFrom inQuote s

/-- The results of a sequence of `ReadLine` calls on one parser, the i-th call
being made on the stream `streams[i]`. -/
def readAll (p : YourCSVParser) : List (List Byte) → List ReadResult
  | [] => []
  | s :: ss => ReadLine p s :: readAll (ReadLine p s).p ss

/-- The parser after a sequence of `ReadLine` calls. -/
def stateAfter (p : YourCSVParser) : List (List Byte) → YourCSVParser
  | [] => p
  | s :: ss => stateAfter (ReadLine p s).p ss

/-- The four ways in which a call of `ReadLine` on parser `p` can end: the
clean end of stream (methods.go 18-21), the end of stream met by the lookahead
read after a carriage return (methods.go 58-60), the code after the loop, and
the unquoted-newline branch. -/
def Outcome (p : YourCSVParser) (r : ReadResult) : Prop :=
  r = ⟨{ p with isEOF := true }, [], some Error.EOF, []⟩ ∨
  r = ⟨p, [], some Error.EOF, []⟩ ∨
  (∃ q cf line, r = finishAtEnd p q cf line []) ∨
  (∃ line rest, r = finishAtNewline p line rest)

/-- The quote tracking of the scan loop of `parseFields` (methods.go 100-116)
taken on its own: the value of `inQuote` when the loop runs to the end of the
bytes, or `none` when the loop is left by the `break` at an unquoted newline. -/
def quoteScan (inQuote : Bool) : List Byte → Option Bool
  | [] => some inQuote
  | b :: rest =>
    if b = COMMA then quoteScan inQuote rest
    else if b = NL ∧ inQuote = false then none
    else if b = QUOTE then quoteScan (!inQuote) rest
    else quoteScan inQuote rest

/-- A call of one of the two accessor methods. -/
inductive AccessorCall where
  | numberOfFields
  | field (n : Int)
  deriving DecidableEq, Repr

/-- The value an accessor call returns. -/
inductive AccessorResult where
  | count (n : Int)
  | field (text : List Byte) (err : Option Error)
  deriving DecidableEq, Repr

/-- An accessor call on the parser object (methods.go 127-139): the parser
afterwards and the returned value.  Neither method body assigns to a field of
the receiver. -/
def callAccessor (p : YourCSVParser) : AccessorCall → YourCSVParser × AccessorResult
  | AccessorCall.numberOfFields => (p, AccessorResult.count (GetNumberOfFields p))
  | AccessorCall.field n => (p, AccessorResult.field (GetField p n).1 (GetField p n).2)

/-- A sequence of accessor calls with no `ReadLine` in between: the parser
afterwards and the returned values in order. -/
def callAccessors (p : YourCSVParser) : List AccessorCall → YourCSVParser × List AccessorResult
  | [] => (p, [])
  | c :: cs =>
    ((callAccessors (callAccessor p c).1 cs).1,
      (callAccessor p c).2 :: (callAccessors (callAccessor p c).1 cs).2)

/-! ### The field splitter -/

/-- The test `len(p.Line) > 0 && p.Line[len(p.Line)-1] == ','` of `parseFields`
says that the last byte of the line is a comma. -/
theorem endsComma_iff (line : List Byte) :
    (line.length > 0 ∧ line.get? (line.length - 1) = some COMMA) ↔ line.getLastD 0 = COMMA := by
  induction line using List.reverseRecOn with
  | nil => simp
  | append_singleton l a _ => simp [List.get?_eq_getElem?]

theorem getLastD_snoc (l : List Byte) (c d : Byte) : (l ++ [c]).getLastD d = c := by
  induction l generalizing d with
  | nil => rfl
  | cons a l ih => simp only [List.cons_append, List.getLastD_cons, ih]

theorem splitFields_eq (line : List Byte) :
    splitFields line =
      (if (parseLoop line false [] []).2.length > 0 ∨ (parseLoop line false [] []).1.length = 0
        then (parseLoop line false [] []).1 ++ [(parseLoop line false [] []).2]
        else (parseLoop line false [] []).1) ++
      (if line.getLastD 0 = COMMA then [[]] else []) := by
  unfold splitFields
  by_cases h : line.getLastD 0 = COMMA
  · have h2 := (endsComma_iff line).2 h
    simp only [h, h2, if_true, and_self]
  · have h2 : ¬ (line.length > 0 ∧ line.get? (line.length - 1) = some COMMA) :=
      fun hc => h ((endsComma_iff line).1 hc)
    simp only [h, h2, if_false, List.append_nil]

theorem parseLoop_unquoted (line : List Byte) (hq : QUOTE ∉ line) (hn : NL ∉ line) :
    ∀ (fields : List (List Byte)) (cf : List Byte) (d : Byte),
      (d = COMMA → cf = [] ∧ fields ≠ []) → (d ≠ COMMA → cf ≠ [] ∨ fields = []) →
      (if (parseLoop line false fields cf).2.length > 0 ∨ (parseLoop line false fields cf).1.length = 0
        then (parseLoop line false fields cf).1 ++ [(parseLoop line false fields cf).2]
        else (parseLoop line false fields cf).1) ++
      (if line.getLastD d = COMMA then [[]] else []) =
      fields ++ (List.splitOn COMMA line).modifyHead (fun f => cf ++ f) := by
  induction line with
  | nil =>
    intro fields cf d h1 h2
    by_cases hd : d = COMMA
    · obtain ⟨hc, hf⟩ := h1 hd
      subst hc
      have : fields.length ≠ 0 := by simpa using hf
      simp [parseLoop, hd, this, List.splitOn, List.splitOnP_nil]
    · rcases h2 hd with h | h <;>
        simp [parseLoop, hd, h, List.splitOn, List.splitOnP_nil]
  | cons b rest ih =>
    intro fields cf d h1 h2
    have hq2 : QUOTE ∉ rest := fun h => hq (List.mem_cons_of_mem _ h)
    have hn2 : NL ∉ rest := fun h => hn (List.mem_cons_of_mem _ h)
    have hbq : b ≠ QUOTE := fun h => hq (by simp [h])
    have hbn : b ≠ NL := fun h => hn (by simp [h])
    by_cases hb : b = COMMA
    · subst hb
      have := ih hq2 hn2 (fields ++ [cf]) [] COMMA (fun _ => ⟨rfl, by simp⟩) (fun h => absurd rfl h)
      simp only [parseLoop, if_true, Bool.false_eq_true, if_false, List.getLastD_cons]
      rw [this]
      simp only [List.splitOn, List.splitOnP_cons, beq_self_eq_true, if_true, List.nil_append]
      cases List.splitOnP (fun x => x == COMMA) rest <;> simp [List.modifyHead]
    · have := ih hq2 hn2 fields (cf ++ [b]) b (fun h => absurd h hb) (fun _ => Or.inl (by simp))
      simp only [parseLoop, hb, hbn, hbq, if_false, false_and, List.getLastD_cons]
      rw [this]
      have hb2 : (b == COMMA) = false := by simpa using hb
      simp only [List.splitOn, List.splitOnP_cons, hb2, Bool.false_eq_true, if_false]
      congr 1
      cases List.splitOnP (fun x => x == COMMA) rest <;> simp [List.modifyHead]

/-- Claim C2: for every line without a quote byte and without a newline
byte, `parseFields` sets `Fields` to the pieces obtained by cutting the line at
every comma, so `a,b,` gives the three fields `a`, `b` and the empty
string. -/
theorem C2_parseFields_unquoted (p : YourCSVParser)
    (hq : QUOTE ∉ p.Line) (hn : NL ∉ p.Line) :
    (parseFields p).Fields = List.splitOn COMMA p.Line ∧
      splitFields [97, 44, 98, 44] = [[97], [98], []] := by
  refine ⟨?_, by decide⟩
  have h := parseLoop_unquoted p.Line hq hn [] [] 0 (by decide) (fun _ => Or.inr rfl)
  show splitFields p.Line = _
  rw [splitFields_eq, h]
  cases List.splitOn COMMA p.Line <;> simp [List.modifyHead]

theorem C2_parseFields_unquoted_witness :
    (parseFields { YourCSVParser.empty with Line := [97, 44, 44, 98, 99] }).Fields
      = [[97], [], [98, 99]] := by
  have h := (C2_parseFields_unquoted { YourCSVParser.empty with Line := [97, 44, 44, 98, 99] }
    (by decide) (by decide)).1
  rw [h]
  decide

/-- A run of bytes that are neither quote, comma nor newline is appended to
`currentField` as it is, whatever the quote state. -/
theorem parseLoop_run (u : List Byte) (hq : QUOTE ∉ u) (hc : COMMA ∉ u) (hn : NL ∉ u) :
    ∀ (rest : List Byte) (inQuote : Bool) (fields : List (List Byte)) (cf : List Byte),
      parseLoop (u ++ rest) inQuote fields cf = parseLoop rest inQuote fields (cf ++ u) := by
  induction u with
  | nil => intro rest inQuote fields cf; simp
  | cons b u ih =>
    intro rest inQuote fields cf
    have hbq : b ≠ QUOTE := fun h => hq (by simp [h])
    have hbc : b ≠ COMMA := fun h => hc (by simp [h])
    have hbn : b ≠ NL := fun h => hn (by simp [h])
    have := ih (fun h => hq (List.mem_cons_of_mem _ h)) (fun h => hc (List.mem_cons_of_mem _ h))
      (fun h => hn (List.mem_cons_of_mem _ h)) rest inQuote fields (cf ++ [b])
    have e : parseLoop (b :: (u ++ rest)) inQuote fields cf
        = parseLoop (u ++ rest) inQuote fields (cf ++ [b]) := by
      simp [parseLoop, hbc, hbn, hbq]
    rw [List.cons_append, e, this]
    simp

/-- Claim C3: a comma inside a quoted field does not end the field and the
quote bytes are dropped: for `x`, `y`, `z`, `w` free of quote, comma and
newline the line `x,"y,z",w` splits into exactly `x`, `y,z` and `w`; in
particular `a,"b,c",d` gives `a`, `b,c`, `d`. -/
theorem C3_parseFields_quoted_comma (p : YourCSVParser) (x y z w : List Byte)
    (hx : QUOTE ∉ x ∧ COMMA ∉ x ∧ NL ∉ x) (hy : QUOTE ∉ y ∧ COMMA ∉ y ∧ NL ∉ y)
    (hz : QUOTE ∉ z ∧ COMMA ∉ z ∧ NL ∉ z) (hw : QUOTE ∉ w ∧ COMMA ∉ w ∧ NL ∉ w)
    (hp : p.Line = x ++ [COMMA, QUOTE] ++ y ++ [COMMA] ++ z ++ [QUOTE, COMMA] ++ w) :
    (parseFields p).Fields = [x, y ++ [COMMA] ++ z, w] ∧
      splitFields [97, 44, 34, 98, 44, 99, 34, 44, 100] = [[97], [98, 44, 99], [100]] := by
  refine ⟨?_, by decide⟩
  show splitFields p.Line = _
  have hscan : parseLoop p.Line false [] [] = ([x, y ++ [COMMA] ++ z], w) := by
    rw [hp]
    simp only [List.append_assoc, List.cons_append, List.nil_append]
    rw [parseLoop_run x hx.1 hx.2.1 hx.2.2]
    simp only [parseLoop, if_true, Bool.false_eq_true, if_false, List.nil_append]
    norm_num
    rw [parseLoop_run y hy.1 hy.2.1 hy.2.2]
    simp only [parseLoop, if_true, List.nil_append]
    rw [parseLoop_run z hz.1 hz.2.1 hz.2.2]
    simp only [parseLoop, if_true, Bool.false_eq_true, if_false, List.nil_append]
    norm_num
    have := parseLoop_run w hw.1 hw.2.1 hw.2.2 [] false [x, y ++ COMMA :: z] []
    simpa [parseLoop] using this
  rw [splitFields_eq, hscan, hp]
  rcases List.eq_nil_or_concat w with hw0 | ⟨w1, c, hw1⟩
  · subst hw0
    have e : x ++ [COMMA, QUOTE] ++ y ++ [COMMA] ++ z ++ [QUOTE, COMMA] ++ []
        = (x ++ [COMMA, QUOTE] ++ y ++ [COMMA] ++ z ++ [QUOTE]) ++ [COMMA] := by simp
    rw [e, getLastD_snoc]
    simp
  · subst hw1
    have hc : c ≠ COMMA := fun h => hw.2.1 (by simp [h])
    have e : x ++ [COMMA, QUOTE] ++ y ++ [COMMA] ++ z ++ [QUOTE, COMMA] ++ w1.concat c
        = (x ++ [COMMA, QUOTE] ++ y ++ [COMMA] ++ z ++ [QUOTE, COMMA] ++ w1) ++ [c] := by simp
    rw [e, getLastD_snoc]
    simp [hc]

theorem C3_parseFields_quoted_comma_witness :
    (parseFields { YourCSVParser.empty with
        Line := [97] ++ [COMMA, QUOTE] ++ [98] ++ [COMMA] ++ [99] ++ [QUOTE, COMMA] ++ [] }).Fields
      = [[97], [98] ++ [COMMA] ++ [99], []] :=
  (C3_parseFields_quoted_comma _ [97] [98] [99] [] (by decide) (by decide) (by decide)
    (by decide) rfl).1

/-! ### The line reader on a complete record -/

/-- The loop of `ReadLine` at a zero-byte read. -/
theorem readLoop_nil (p : YourCSVParser) (q : Bool) (cf line : List Byte) :
    readLoop p [] q cf line =
      if line.length = 0 then ⟨{ p with isEOF := true }, [], some Error.EOF, []⟩
      else finishAtEnd p q cf line [] := by
  rw [readLoop]

/-- One iteration of the loop of `ReadLine` on the byte `char`. -/
theorem readLoop_cons (p : YourCSVParser) (char : Byte) (rest : List Byte) (q : Bool) (cf line : List Byte) :
    readLoop p (char :: rest) q cf line =
    if char = NL then
      if q = false then finishAtNewline p (line ++ cf) rest
      else readLoop p rest q (cf ++ [char]) line
    else if char = CR then
      match rest with
      | [] => ⟨p, [], some Error.EOF, []⟩
      | next :: rest2 =>
        if next = NL then readLoop p rest2 q cf line
        else readLoop p rest2 q [] (line ++ cf ++ [CR])
    else if char = COMMA then
      if q = false then readLoop p rest q [] (line ++ cf ++ [COMMA])
      else readLoop p rest q (cf ++ [char]) line
    else if char = QUOTE then readLoop p rest (!q) (cf ++ [char]) line
    else readLoop p rest q (cf ++ [char]) line := by
  cases rest <;> rfl

theorem completeFrom_of_counts (s : List Byte) :
    ∀ (q : Bool), CR ∉ s → (s.count QUOTE + q.toNat) % 2 = 0 →
      (∀ i, s.get? i = some NL → ((s.take i).count QUOTE + q.toNat) % 2 = 1) →
      completeFrom q s = true := by
  induction s with
  | nil =>
    intro q _ h _
    cases q <;> simp_all [completeFrom]
  | cons b s ih =>
    intro q hcr hcount hnl
    have hcr2 : CR ∉ s := fun h => hcr (List.mem_cons_of_mem _ h)
    have hb : b ≠ CR := fun h => hcr (by simp [h])
    by_cases hbq : b = QUOTE
    · subst hbq
      have h1 : (s.count QUOTE + (!q).toNat) % 2 = 0 := by
        have := hcount
        simp only [List.count_cons_self] at this
        cases q <;> (simp_all; try omega)
      have h2 : ∀ i, s.get? i = some NL → ((s.take i).count QUOTE + (!q).toNat) % 2 = 1 := by
        intro i hi
        have := hnl (i + 1) (by simpa using hi)
        simp only [List.take_succ_cons, List.count_cons_self] at this
        cases q <;> (simp_all; try omega)
      simpa [completeFrom] using ih (!q) hcr2 h1 h2
    · have hcnt : (b :: s).count QUOTE = s.count QUOTE := by
        simp [List.count_cons, hbq]
      have h1 : (s.count QUOTE + q.toNat) % 2 = 0 := by rw [← hcnt]; exact hcount
      have h2 : ∀ i, s.get? i = some NL → ((s.take i).count QUOTE + q.toNat) % 2 = 1 := by
        intro i hi
        have := hnl (i + 1) (by simpa using hi)
        simpa [List.take_succ_cons, List.count_cons, hbq] using this
      have hrec := ih q hcr2 h1 h2
      by_cases hbn : b = NL
      · subst hbn
        have := hnl 0 (by simp)
        have hq : q = true := by cases q <;> simp_all
        subst hq
        simpa [completeFrom] using hrec
      · simp [completeFrom, hb, hbq, hbn, hrec]

/-- On a complete record followed by a newline the loop reaches the
unquoted-newline branch with `line` equal to everything read for the record. -/
theorem readLoop_complete (p : YourCSVParser) (s rest : List Byte) :
    ∀ (q : Bool) (cf line : List Byte), completeFrom q s = true →
      readLoop p (s ++ NL :: rest) q cf line = finishAtNewline p (line ++ cf ++ s) rest := by
  induction s with
  | nil =>
    intro q cf line h
    have hq : q = false := by simpa [completeFrom] using h
    simp [readLoop_cons, hq]
  | cons b s ih =>
    intro q cf line h
    rw [List.cons_append, readLoop_cons]
    by_cases hb : b = CR
    · simp [completeFrom, hb] at h
    by_cases hbq : b = QUOTE
    · subst hbq
      have h2 : completeFrom (!q) s = true := by simpa [completeFrom] using h
      have := ih (!q) (cf ++ [QUOTE]) line h2
      rw [if_neg (by decide), if_neg (by decide), if_neg (by decide), if_pos rfl, this]
      simp
    by_cases hbn : b = NL
    · subst hbn
      have h2 : q = true ∧ completeFrom q s = true := by simpa [completeFrom] using h
      have := ih q (cf ++ [NL]) line h2.2
      rw [if_pos rfl, if_neg (by simp [h2.1]), this]
      simp
    have h2 : completeFrom q s = true := by simpa [completeFrom, hb, hbq, hbn] using h
    rw [if_neg hbn, if_neg hb]
    by_cases hbc : b = COMMA
    · subst hbc
      rw [if_pos rfl]
      cases q
      · have := ih false [] (line ++ cf ++ [COMMA]) h2
        rw [if_pos rfl, this]; simp
      · have := ih true (cf ++ [COMMA]) line h2
        rw [if_neg (by decide), this]; simp
    · have := ih q (cf ++ [b]) line h2
      rw [if_neg hbc, if_neg hbq, this]; simp

/-- Claim C1: on a stream `s ++ "\n" ++ rest`, where `s` has no carriage
return, an even number of quote bytes and every newline of `s` is preceded by
an odd number of quote bytes, `ReadLine` on a fresh parser returns exactly `s`
with no error, sets `Line` to `s` and leaves exactly `rest` unread. -/
theorem C1_ReadLine_complete_record (s rest : List Byte)
    (hcr : CR ∉ s) (hq : s.count QUOTE % 2 = 0)
    (hnl : ∀ i, s.get? i = some NL → (s.take i).count QUOTE % 2 = 1) :
    (ReadLine YourCSVParser.empty (s ++ [NL] ++ rest)).text = s ∧
      (ReadLine YourCSVParser.empty (s ++ [NL] ++ rest)).err = none ∧
      (ReadLine YourCSVParser.empty (s ++ [NL] ++ rest)).p.Line = s ∧
      (ReadLine YourCSVParser.empty (s ++ [NL] ++ rest)).rest = rest := by
  have hc : completeFrom false s = true :=
    completeFrom_of_counts s false hcr (by simpa using hq) (by simpa using hnl)
  have h := readLoop_complete YourCSVParser.empty s rest false [] [] hc
  have e : s ++ [NL] ++ rest = s ++ NL :: rest := by simp
  unfold ReadLine
  rw [e, h]
  simp [finishAtNewline, parseFields, YourCSVParser.empty]

theorem C1_ReadLine_complete_record_witness :
    (ReadLine YourCSVParser.empty ([97, 44, 34, 98, 10, 44, 99, 34] ++ [NL] ++ [100, 10])).text
        = [97, 44, 34, 98, 10, 44, 99, 34] ∧
      (ReadLine YourCSVParser.empty ([97, 44, 34, 98, 10, 44, 99, 34] ++ [NL] ++ [100, 10])).err
        = none ∧
      (ReadLine YourCSVParser.empty ([97, 44, 34, 98, 10, 44, 99, 34] ++ [NL] ++ [100, 10])).p.Line
        = [97, 44, 34, 98, 10, 44, 99, 34] ∧
      (ReadLine YourCSVParser.empty ([97, 44, 34, 98, 10, 44, 99, 34] ++ [NL] ++ [100, 10])).rest
        = [100, 10] :=
  C1_ReadLine_complete_record [97, 44, 34, 98, 10, 44, 99, 34] [100, 10] (by decide) (by decide)
    (by
      intro i hi
      have hlt : i < 8 := by
        by_contra hge
        have : ([97, 44, 34, 98, 10, 44, 99, 34] : List Byte).get? i = none :=
          List.get?_eq_none.mpr (by simpa using hge)
        rw [this] at hi
        exact absurd hi (by simp)
      interval_cases i <;> simp_all)

/-- Claim C4, the code at the failing input: on the stream `a\r\nb\r\n` the
first `ReadLine` on a fresh parser does not return the line `a`; both
`\r\n` pairs are swallowed whole and the call ends with `io.EOF`, the
parser holding no line. -/
theorem C4_ReadLine_crlf_eval :
    ReadLine YourCSVParser.empty [97, 13, 10, 98, 13, 10] =
      ⟨{ YourCSVParser.empty with isEOF := true }, [], some Error.EOF, []⟩ := by
  decide

/-- Claim C5, the code at the failing input: on the stream `abc`, a final line
without a trailing newline, `ReadLine` on a fresh parser returns the empty text
with `io.EOF` and sets `isEOF`, leaving `Line`, `Fields` and `wasRead` as they
were; on `a,b` the same final-line path succeeds. -/
theorem C5_ReadLine_final_line_eval :
    ReadLine YourCSVParser.empty [97, 98, 99] =
        ⟨{ YourCSVParser.empty with isEOF := true }, [], some Error.EOF, []⟩ ∧
      ReadLine YourCSVParser.empty [97, 44, 98] =
        ⟨{ Line := [97, 44, 98], Fields := [[97], [98]], wasRead := true, isEOF := false,
           expectedFields := 2 }, [97, 44, 98], none, []⟩ := by
  decide

/-- Claim C6, the code at the failing input: on the stream `"abc`, which ends
inside an open quote, `ReadLine` on a fresh parser returns `io.EOF`, not
`ErrQuote`; on `a,"bc` it returns `ErrQuote`. -/
theorem C6_ReadLine_open_quote_eval :
    (ReadLine YourCSVParser.empty [34, 97, 98, 99]).err = some Error.EOF ∧
      (ReadLine YourCSVParser.empty [34, 97, 98, 99]).p.isEOF = true ∧
      (ReadLine YourCSVParser.empty [97, 44, 34, 98, 99]).err = some Error.ErrQuote := by
  decide

/-- Claim C7: with `expectedFields` already set to a non-zero value, on a
stream `s ++ "\n" ++ rest` whose `s` is a complete record, `ReadLine` returns
`ErrFieldCount` exactly when the number of fields of the split of `s` differs
from `expectedFields`, and otherwise succeeds returning `s`. -/
theorem C7_ReadLine_field_count (p : YourCSVParser) (s rest : List Byte)
    (hk : p.expectedFields ≠ 0)
    (hcr : CR ∉ s) (hq : s.count QUOTE % 2 = 0)
    (hnl : ∀ i, s.get? i = some NL → (s.take i).count QUOTE % 2 = 1) :
    ((ReadLine p (s ++ [NL] ++ rest)).err = some Error.ErrFieldCount ↔
        ((splitFields s).length : Int) ≠ p.expectedFields) ∧
      (((splitFields s).length : Int) = p.expectedFields →
        (ReadLine p (s ++ [NL] ++ rest)).err = none ∧
        (ReadLine p (s ++ [NL] ++ rest)).text = s) := by
  have hc : completeFrom false s = true :=
    completeFrom_of_counts s false hcr (by simpa using hq) (by simpa using hnl)
  have h := readLoop_complete p s rest false [] [] hc
  have e : s ++ [NL] ++ rest = s ++ NL :: rest := by simp
  unfold ReadLine
  rw [e, h]
  by_cases hlen : ((splitFields s).length : Int) = p.expectedFields
  · simp [finishAtNewline, parseFields, hk, hlen]
  · simp [finishAtNewline, parseFields, hk, hlen]

theorem C7_ReadLine_field_count_witness :
    (ReadLine YourCSVParser.empty [97, 44, 98, 44, 99, 10, 100, 44, 101, 10]).err = none ∧
      (ReadLine YourCSVParser.empty [97, 44, 98, 44, 99, 10, 100, 44, 101, 10]).p.Fields.length = 3 ∧
      (ReadLine YourCSVParser.empty [97, 44, 98, 44, 99, 10, 100, 44, 101, 10]).rest
        = [100, 44, 101] ++ [NL] ++ [] ∧
      (ReadLine (ReadLine YourCSVParser.empty [97, 44, 98, 44, 99, 10, 100, 44, 101, 10]).p
        ([100, 44, 101] ++ [NL] ++ [])).err = some Error.ErrFieldCount :=
  ⟨by decide, by decide, by decide,
    (C7_ReadLine_field_count
      (ReadLine YourCSVParser.empty [97, 44, 98, 44, 99, 10, 100, 44, 101, 10]).p
      [100, 44, 101] [] (by decide) (by decide) (by decide)
      (by
        intro i hi
        have hlt : i < 3 := by
          by_contra hge
          have : ([100, 44, 101] : List Byte).get? i = none :=
            List.get?_eq_none.mpr (by simpa using hge)
          rw [this] at hi
          exact absurd hi (by simp)
        interval_cases i <;> simp_all)).1.2 (by decide)⟩

/-- Claim C8: `GetField(n)` returns an error exactly when `wasRead` is false, or
`n < 0`, or `n ≥ len(Fields)`; in every other case it returns `Fields[n]`
with no error.  With `wasRead` true it succeeds exactly for
`0 ≤ n < GetNumberOfFields()`. -/
theorem C8_GetField_error_iff (p : YourCSVParser) (n : Int) :
    ((GetField p n).2 ≠ none ↔
        (p.wasRead = false ∨ n < 0 ∨ n ≥ (p.Fields.length : Int))) ∧
      (¬ (p.wasRead = false ∨ n < 0 ∨ n ≥ (p.Fields.length : Int)) →
        (GetField p n).2 = none ∧ p.Fields.get? n.toNat = some (GetField p n).1) ∧
      ((p.wasRead = false ∨ n < 0 ∨ n ≥ (p.Fields.length : Int)) →
        GetField p n = ([], some Error.ErrFieldCount)) ∧
      (p.wasRead = true →
        ((GetField p n).2 = none ↔ (0 ≤ n ∧ n < GetNumberOfFields p))) := by
  by_cases h : p.wasRead = false ∨ n < 0 ∨ n ≥ (p.Fields.length : Int)
  · refine ⟨?_, fun hn => absurd h hn, ?_, ?_⟩
    · simp [GetField, h]
    · intro _; simp [GetField, h]
    · intro hw
      rcases h with h | h | h
      · simp [hw] at h
      · simp [GetField, h]
      · simp [GetField, GetNumberOfFields, hw, h]
  · have hg : GetField p n = (p.Fields.getD n.toNat [], none) := by simp [GetField, h]
    push_neg at h
    obtain ⟨hw, h0, hlt⟩ := h
    have hlt2 : n.toNat < p.Fields.length := by omega
    refine ⟨?_, ?_, ?_, ?_⟩
    · rw [hg]; simp; exact ⟨by simpa using hw, h0, hlt⟩
    · intro _
      rw [hg]
      refine ⟨rfl, ?_⟩
      simp [List.getD, List.get?_eq_getElem?, List.getElem?_eq_getElem hlt2]
    · intro hc
      rcases hc with hc | hc | hc
      · exact absurd hc hw
      · omega
      · omega
    · intro hw2
      rw [hg]
      simp [GetNumberOfFields, hw2]
      exact ⟨h0, hlt⟩

/-! ### Every call of `ReadLine` -/

theorem readLoop_outcome (p : YourCSVParser) :
    ∀ (n : Nat) (stream : List Byte), stream.length ≤ n →
      ∀ (q : Bool) (cf line : List Byte), Outcome p (readLoop p stream q cf line) := by
  intro n
  induction n with
  | zero =>
    intro stream hlen q cf line
    have : stream = [] := List.length_eq_zero.mp (Nat.le_zero.mp hlen)
    subst this
    rw [readLoop_nil]
    split_ifs
    · exact Or.inl rfl
    · exact Or.inr (Or.inr (Or.inl ⟨q, cf, line, rfl⟩))
  | succ n ih =>
    intro stream hlen q cf line
    cases stream with
    | nil =>
      rw [readLoop_nil]
      split_ifs
      · exact Or.inl rfl
      · exact Or.inr (Or.inr (Or.inl ⟨q, cf, line, rfl⟩))
    | cons char rest =>
      have hrest : rest.length ≤ n := by simpa using hlen
      rw [readLoop_cons]
      by_cases h1 : char = NL
      · rw [if_pos h1]
        split_ifs
        · exact Or.inr (Or.inr (Or.inr ⟨_, _, rfl⟩))
        · exact ih rest hrest _ _ _
      rw [if_neg h1]
      by_cases h2 : char = CR
      · rw [if_pos h2]
        cases rest with
        | nil => exact Or.inr (Or.inl rfl)
        | cons next rest2 =>
          have hrest2 : rest2.length ≤ n := by
            have : rest2.length + 1 ≤ n := by simpa using hrest
            omega
          show Outcome p (if next = NL then _ else _)
          split_ifs
          · exact ih rest2 hrest2 _ _ _
          · exact ih rest2 hrest2 _ _ _
      rw [if_neg h2]
      split_ifs <;> exact ih rest hrest _ _ _

theorem ReadLine_outcome (p : YourCSVParser) (stream : List Byte) :
    Outcome p (ReadLine p stream) :=
  readLoop_outcome p stream.length stream (Nat.le_refl _) false [] []

theorem splitFields_ne_nil (line : List Byte) : splitFields line ≠ [] := by
  rw [splitFields_eq]
  by_cases h : (parseLoop line false [] []).2.length > 0 ∨ (parseLoop line false [] []).1.length = 0
  · rw [if_pos h]; simp
  · rw [if_neg h]
    push_neg at h
    intro hc
    have := (List.append_eq_nil.mp hc).1
    exact h.2 (by simp [this])

theorem finishAtNewline_first (p : YourCSVParser) (line rest : List Byte)
    (h : p.expectedFields = 0) :
    finishAtNewline p line rest =
      ⟨{ Line := line, Fields := splitFields line, wasRead := true, isEOF := p.isEOF,
         expectedFields := ((splitFields line).length : Int) }, line, none, rest⟩ := by
  simp [finishAtNewline, parseFields, h]

theorem finishAtNewline_match (p : YourCSVParser) (line rest : List Byte)
    (h : p.expectedFields ≠ 0) (h2 : ((splitFields line).length : Int) = p.expectedFields) :
    finishAtNewline p line rest =
      ⟨{ Line := line, Fields := splitFields line, wasRead := true, isEOF := p.isEOF,
         expectedFields := p.expectedFields }, line, none, rest⟩ := by
  simp [finishAtNewline, parseFields, h, h2]

theorem finishAtNewline_mismatch (p : YourCSVParser) (line rest : List Byte)
    (h : p.expectedFields ≠ 0) (h2 : ((splitFields line).length : Int) ≠ p.expectedFields) :
    finishAtNewline p line rest =
      ⟨{ Line := line, Fields := splitFields line, wasRead := p.wasRead, isEOF := p.isEOF,
         expectedFields := p.expectedFields }, [], some Error.ErrFieldCount, rest⟩ := by
  simp [finishAtNewline, parseFields, h, h2]

theorem finishAtEnd_quote (p : YourCSVParser) (cf line rest : List Byte) :
    finishAtEnd p true cf line rest = ⟨p, [], some Error.ErrQuote, rest⟩ := by
  simp [finishAtEnd]

theorem finishAtEnd_first (p : YourCSVParser) (cf line rest : List Byte)
    (h : p.expectedFields = 0) :
    finishAtEnd p false cf line rest =
      ⟨{ Line := line ++ cf, Fields := splitFields (line ++ cf), wasRead := true, isEOF := false,
         expectedFields := ((splitFields (line ++ cf)).length : Int) }, line ++ cf, none, rest⟩ := by
  simp [finishAtEnd, parseFields, h]

theorem finishAtEnd_match (p : YourCSVParser) (cf line rest : List Byte)
    (h : p.expectedFields ≠ 0)
    (h2 : ((splitFields (line ++ cf)).length : Int) = p.expectedFields) :
    finishAtEnd p false cf line rest =
      ⟨{ Line := line ++ cf, Fields := splitFields (line ++ cf), wasRead := true, isEOF := false,
         expectedFields := p.expectedFields }, line ++ cf, none, rest⟩ := by
  simp [finishAtEnd, parseFields, h, h2]

theorem finishAtEnd_mismatch (p : YourCSVParser) (cf line rest : List Byte)
    (h : p.expectedFields ≠ 0)
    (h2 : ((splitFields (line ++ cf)).length : Int) ≠ p.expectedFields) :
    finishAtEnd p false cf line rest =
      ⟨{ Line := line ++ cf, Fields := splitFields (line ++ cf), wasRead := p.wasRead,
         isEOF := p.isEOF, expectedFields := p.expectedFields },
        [], some Error.ErrFieldCount, rest⟩ := by
  simp [finishAtEnd, parseFields, h, h2]

theorem outcome_consistent (p : YourCSVParser) (r : ReadResult) (h : Outcome p r)
    (hok : r.err = none) : r.p.Fields = splitFields r.p.Line ∧ r.text = r.p.Line := by
  rcases h with h | h | ⟨q, cf, line, h⟩ | ⟨line, rest, h⟩
  · subst h; simp at hok
  · subst h; simp at hok
  · subst h
    cases q
    · by_cases hk : p.expectedFields = 0
      · rw [finishAtEnd_first p cf line [] hk]; exact ⟨rfl, rfl⟩
      · by_cases h2 : ((splitFields (line ++ cf)).length : Int) = p.expectedFields
        · rw [finishAtEnd_match p cf line [] hk h2]; exact ⟨rfl, rfl⟩
        · rw [finishAtEnd_mismatch p cf line [] hk h2] at hok; simp at hok
    · rw [finishAtEnd_quote] at hok; simp at hok
  · subst h
    by_cases hk : p.expectedFields = 0
    · rw [finishAtNewline_first p line rest hk]; exact ⟨rfl, rfl⟩
    · by_cases h2 : ((splitFields line).length : Int) = p.expectedFields
      · rw [finishAtNewline_match p line rest hk h2]; exact ⟨rfl, rfl⟩
      · rw [finishAtNewline_mismatch p line rest hk h2] at hok; simp at hok

theorem outcome_expected_keep (p : YourCSVParser) (r : ReadResult) (h : Outcome p r)
    (hk : p.expectedFields ≠ 0) : r.p.expectedFields = p.expectedFields := by
  rcases h with h | h | ⟨q, cf, line, h⟩ | ⟨line, rest, h⟩
  · subst h; rfl
  · subst h; rfl
  · subst h
    cases q
    · by_cases h2 : ((splitFields (line ++ cf)).length : Int) = p.expectedFields
      · rw [finishAtEnd_match p cf line [] hk h2]
      · rw [finishAtEnd_mismatch p cf line [] hk h2]
    · rw [finishAtEnd_quote]
  · subst h
    by_cases h2 : ((splitFields line).length : Int) = p.expectedFields
    · rw [finishAtNewline_match p line rest hk h2]
    · rw [finishAtNewline_mismatch p line rest hk h2]

theorem outcome_expected_first (p : YourCSVParser) (r : ReadResult) (h : Outcome p r)
    (hk : p.expectedFields = 0) :
    (r.err ≠ none → r.p.expectedFields = 0) ∧
      (r.err = none → r.p.expectedFields = ((splitFields r.text).length : Int) ∧
        r.p.expectedFields ≠ 0) := by
  rcases h with h | h | ⟨q, cf, line, h⟩ | ⟨line, rest, h⟩
  · subst h; simp [hk]
  · subst h; simp [hk]
  · subst h
    cases q
    · rw [finishAtEnd_first p cf line [] hk]
      have := splitFields_ne_nil (line ++ cf)
      simp [this]
    · rw [finishAtEnd_quote]; simp [hk]
  · subst h
    rw [finishAtNewline_first p line rest hk]
    have := splitFields_ne_nil line
    simp [this]

/-- Claim C9: after every successful `ReadLine`, on the newline path or on the
end-of-stream path, `Fields` is exactly the field splitter applied to `Line`,
and the returned text equals `Line`. -/
theorem C9_ReadLine_fields_consistent (p : YourCSVParser) (stream : List Byte)
    (hok : (ReadLine p stream).err = none) :
    (ReadLine p stream).p.Fields = (parseFields (ReadLine p stream).p).Fields ∧
      (ReadLine p stream).p.Fields = splitFields (ReadLine p stream).p.Line ∧
      (ReadLine p stream).text = (ReadLine p stream).p.Line := by
  have h := outcome_consistent p _ (ReadLine_outcome p stream) hok
  exact ⟨by simpa [parseFields] using h.1, h.1, h.2⟩

theorem C9_ReadLine_fields_consistent_witness :
    (ReadLine YourCSVParser.empty [97, 44, 98]).p.Fields
        = (parseFields (ReadLine YourCSVParser.empty [97, 44, 98]).p).Fields ∧
      (ReadLine YourCSVParser.empty [97, 44, 98]).p.Fields
        = splitFields (ReadLine YourCSVParser.empty [97, 44, 98]).p.Line ∧
      (ReadLine YourCSVParser.empty [97, 44, 98]).text
        = (ReadLine YourCSVParser.empty [97, 44, 98]).p.Line :=
  C9_ReadLine_fields_consistent YourCSVParser.empty [97, 44, 98] (by decide)

theorem stateAfter_expected_keep (streams : List (List Byte)) :
    ∀ (p : YourCSVParser), p.expectedFields ≠ 0 →
      (stateAfter p streams).expectedFields = p.expectedFields := by
  induction streams with
  | nil => intro p _; rfl
  | cons s ss ih =>
    intro p hk
    have h1 := outcome_expected_keep p _ (ReadLine_outcome p s) hk
    show (stateAfter (ReadLine p s).p ss).expectedFields = _
    rw [ih _ (by rw [h1]; exact hk), h1]

theorem stateAfter_expected (streams : List (List Byte)) :
    ∀ (p : YourCSVParser), p.expectedFields = 0 →
      ((∀ r ∈ readAll p streams, r.err ≠ none) → (stateAfter p streams).expectedFields = 0) ∧
      ((∃ r ∈ readAll p streams, r.err = none) → (stateAfter p streams).expectedFields ≠ 0) := by
  induction streams with
  | nil =>
    intro p hk
    exact ⟨fun _ => hk, fun ⟨r, hr, _⟩ => absurd hr (by simp [readAll])⟩
  | cons s ss ih =>
    intro p hk
    have hfirst := outcome_expected_first p _ (ReadLine_outcome p s) hk
    by_cases hok : (ReadLine p s).err = none
    · have hne := (hfirst.2 hok).2
      have hkeep := stateAfter_expected_keep ss _ hne
      refine ⟨fun hall => absurd hok (hall _ (by simp [readAll])), fun _ => ?_⟩
      show (stateAfter (ReadLine p s).p ss).expectedFields ≠ 0
      rw [hkeep]; exact hne
    · have hz := hfirst.1 hok
      have := ih _ hz
      refine ⟨fun hall => this.1 (fun r hr => hall r (by simp [readAll, hr])), ?_⟩
      rintro ⟨r, hr, hr2⟩
      simp only [readAll, List.mem_cons] at hr
      rcases hr with hr | hr
      · subst hr; exact absurd hr2 hok
      · exact this.2 ⟨r, hr, hr2⟩

/-- Claim C10: `expectedFields` is set exactly once.  Starting from the empty
parser, after any sequence of `ReadLine` calls on any streams: while no call
has succeeded `expectedFields` is 0, a failing next call leaves it 0, and a
successful next call sets it to the non-zero number of fields of the line it
returns; once a call has succeeded, every later call, successful or failing,
leaves `expectedFields` unchanged. -/
theorem C10_expectedFields_set_once (streams : List (List Byte)) (s : List Byte) :
    ((∀ r ∈ readAll YourCSVParser.empty streams, r.err ≠ none) →
        (stateAfter YourCSVParser.empty streams).expectedFields = 0 ∧
        ((ReadLine (stateAfter YourCSVParser.empty streams) s).err ≠ none →
          (ReadLine (stateAfter YourCSVParser.empty streams) s).p.expectedFields = 0) ∧
        ((ReadLine (stateAfter YourCSVParser.empty streams) s).err = none →
          (ReadLine (stateAfter YourCSVParser.empty streams) s).p.expectedFields
            = ((splitFields (ReadLine (stateAfter YourCSVParser.empty streams) s).text).length : Int) ∧
          (ReadLine (stateAfter YourCSVParser.empty streams) s).p.expectedFields ≠ 0)) ∧
      ((∃ r ∈ readAll YourCSVParser.empty streams, r.err = none) →
        (stateAfter YourCSVParser.empty streams).expectedFields ≠ 0 ∧
        (ReadLine (stateAfter YourCSVParser.empty streams) s).p.expectedFields
          = (stateAfter YourCSVParser.empty streams).expectedFields) := by
  have hinv := stateAfter_expected streams YourCSVParser.empty rfl
  refine ⟨fun hall => ?_, fun hex => ?_⟩
  · have hz := hinv.1 hall
    have hfirst := outcome_expected_first _ _
      (ReadLine_outcome (stateAfter YourCSVParser.empty streams) s) hz
    exact ⟨hz, hfirst.1, hfirst.2⟩
  · have hne := hinv.2 hex
    exact ⟨hne, outcome_expected_keep _ _
      (ReadLine_outcome (stateAfter YourCSVParser.empty streams) s) hne⟩

/-! ### The splitter on arbitrary lines -/

theorem splitFields_unquoted (line : List Byte) (hq : QUOTE ∉ line) (hn : NL ∉ line) :
    splitFields line = List.splitOn COMMA line := by
  have h := parseLoop_unquoted line hq hn [] [] 0 (by decide) (fun _ => Or.inr rfl)
  rw [splitFields_eq, h]
  cases List.splitOn COMMA line <;> simp [List.modifyHead]

/-- Claim C11: the field splitter always produces at least one field; for
the empty line it produces exactly one empty field, and `ReadLine` on the
stream `"\n"` succeeds on a fresh parser with the empty text and exactly one
empty field. -/
theorem C11_splitFields_nonempty (p : YourCSVParser) :
    (parseFields p).Fields ≠ [] ∧ 0 < (parseFields p).Fields.length ∧
      splitFields [] = [[]] ∧
      (ReadLine YourCSVParser.empty [NL]).err = none ∧
      (ReadLine YourCSVParser.empty [NL]).text = [] ∧
      (ReadLine YourCSVParser.empty [NL]).p.Fields = [[]] := by
  have h : splitFields p.Line ≠ [] := splitFields_ne_nil p.Line
  refine ⟨h, List.length_pos.mpr h, by decide, by decide, by decide, by decide⟩

/-- Claim C12 as stated fails: the line `"\n"` has no quote, no comma and no
carriage return, the splitter yields the single empty field for it, and
joining that with commas gives the empty line, not `"\n"`. -/
theorem C12_roundtrip_counterexample :
    QUOTE ∉ ([NL] : List Byte) ∧ COMMA ∉ ([NL] : List Byte) ∧ CR ∉ ([NL] : List Byte) ∧
      splitFields [NL] = [[]] ∧
      List.intercalate [COMMA] (splitFields [NL]) ≠ [NL] := by
  decide

/-- Claim C12, amended: for every line that contains no quote, no comma, no
carriage return and no newline, joining the fields of the splitter with commas
reproduces the line exactly. -/
theorem C12_roundtrip_no_newline (line : List Byte)
    (hq : QUOTE ∉ line) (_hc : COMMA ∉ line) (_hr : CR ∉ line) (hn : NL ∉ line) :
    List.intercalate [COMMA] (splitFields line) = line := by
  rw [splitFields_unquoted line hq hn]
  exact List.intercalate_splitOn line COMMA

theorem C12_roundtrip_no_newline_witness :
    List.intercalate [COMMA] (splitFields [97, 32, 98]) = [97, 32, 98] :=
  C12_roundtrip_no_newline [97, 32, 98] (by decide) (by decide) (by decide) (by decide)

/-- Claim C13: for every parser state, `ReadLine` on an exhausted stream
returns the empty text with `io.EOF`, sets `isEOF`, and leaves `Line`,
`Fields`, `wasRead` and `expectedFields` unchanged. -/
theorem C13_ReadLine_clean_eof (p : YourCSVParser) :
    (ReadLine p []).text = [] ∧ (ReadLine p []).err = some Error.EOF ∧
      (ReadLine p []).p.isEOF = true ∧ (ReadLine p []).p.Line = p.Line ∧
      (ReadLine p []).p.Fields = p.Fields ∧ (ReadLine p []).p.wasRead = p.wasRead ∧
      (ReadLine p []).p.expectedFields = p.expectedFields := by
  have h : ReadLine p [] = ⟨{ p with isEOF := true }, [], some Error.EOF, []⟩ := by
    unfold ReadLine
    rw [readLoop_nil]
    simp
  rw [h]
  exact ⟨rfl, rfl, rfl, rfl, rfl, rfl, rfl⟩

/-- Claim C14: `GetNumberOfFields` returns 0 when `wasRead` and `isEOF` are both
false, and `len(Fields)` in every other state. -/
theorem C14_GetNumberOfFields_value (p : YourCSVParser) :
    (p.wasRead = false ∧ p.isEOF = false → GetNumberOfFields p = 0) ∧
      (p.wasRead = true ∨ p.isEOF = true → GetNumberOfFields p = (p.Fields.length : Int)) := by
  constructor
  · intro h
    simp [GetNumberOfFields, h.1, h.2]
  · intro h
    rcases h with h | h <;> simp [GetNumberOfFields, h]

/-- Claim C15: the accessors are read-only and idempotent: a call of
`GetNumberOfFields` or `GetField(i)` leaves the parser as it was, so in any
sequence of accessor calls with no `ReadLine` in between every call returns
what it returns on the state before the sequence, and the parser at the end
is that state. -/
theorem C15_accessors_read_only (p : YourCSVParser) (cs : List AccessorCall) :
    (∀ c, (callAccessor p c).1 = p) ∧
      (callAccessors p cs).1 = p ∧
      (callAccessors p cs).2 = cs.map (fun c => (callAccessor p c).2) := by
  have h1 : ∀ c, (callAccessor p c).1 = p := by
    intro c
    cases c <;> rfl
  refine ⟨h1, ?_⟩
  induction cs with
  | nil => exact ⟨rfl, rfl⟩
  | cons c cs ih =>
    simp only [callAccessors, h1 c, List.map_cons]
    exact ⟨ih.1, by rw [ih.2]⟩

/-- Claim C18, the code at the failing input: for the line `"a\n"` the scan
closes the field `a` at the newline and leaves the loop with `currentField`
still holding `a`, so the finishing step emits `a` a second time; with a comma
at the very end of the line, as in `"a\nb,"`, an empty field follows as well.
The splitter on `"a"` alone yields the single field `a`. -/
theorem C18_splitFields_newline_eval :
    splitFields [97, 10] = [[97], [97]] ∧
      splitFields [97] = [[97]] ∧
      parseLoop [97, 10] false [] [] = ([[97]], [97]) ∧
      splitFields [97, 10, 98, 44] = [[97], [97], []] := by
  decide

/-- Claim C19, the code at the failing input: the line `a,""` has balanced
quotes, no newline and one comma outside quotes, and the splitter yields the
one field `a`, not two fields; `a,` and `"",a` both yield two.  `ReadLine`
hands the splitter that line on the stream `a,""` followed by a newline. -/
theorem C19_splitFields_empty_quoted_eval :
    splitFields [97, 44, 34, 34] = [[97]] ∧
      (splitFields [97, 44, 34, 34]).length = 1 ∧
      splitFields [97, 44] = [[97], []] ∧
      splitFields [34, 34, 44, 97] = [[], [97]] ∧
      (ReadLine YourCSVParser.empty [97, 44, 34, 34, 10]).p.Line = [97, 44, 34, 34] ∧
      (ReadLine YourCSVParser.empty [97, 44, 34, 34, 10]).p.Fields = [[97]] := by
  decide

/-! ### Failed and irregular reads -/

/-- Claim C16: no rollback on a field-count failure.  When `ReadLine`, called
after an earlier successful read (`wasRead` is true), returns `ErrFieldCount`
for a complete record `s`, the parser's `Line` is already `s` and `Fields` is
already the split of `s`, so `GetNumberOfFields` reports the new, mismatching
count and `GetField` serves the fields of `s`, while `expectedFields` and
`wasRead` keep the values they had before the call. -/
theorem C16_ReadLine_no_rollback (p : YourCSVParser) (s rest : List Byte)
    (hw : p.wasRead = true)
    (hcr : CR ∉ s) (hq : s.count QUOTE % 2 = 0)
    (hnl : ∀ i, s.get? i = some NL → (s.take i).count QUOTE % 2 = 1)
    (herr : (ReadLine p (s ++ [NL] ++ rest)).err = some Error.ErrFieldCount) :
    (ReadLine p (s ++ [NL] ++ rest)).p.Line = s ∧
      (ReadLine p (s ++ [NL] ++ rest)).p.Fields = splitFields s ∧
      (ReadLine p (s ++ [NL] ++ rest)).p.expectedFields = p.expectedFields ∧
      (ReadLine p (s ++ [NL] ++ rest)).p.wasRead = p.wasRead ∧
      GetNumberOfFields (ReadLine p (s ++ [NL] ++ rest)).p = ((splitFields s).length : Int) ∧
      ((splitFields s).length : Int) ≠ p.expectedFields ∧
      (∀ i : Nat, i < (splitFields s).length →
        GetField (ReadLine p (s ++ [NL] ++ rest)).p (i : Int) = ((splitFields s).getD i [], none)) := by
  have hc : completeFrom false s = true :=
    completeFrom_of_counts s false hcr (by simpa using hq) (by simpa using hnl)
  have h := readLoop_complete p s rest false [] [] hc
  have e : s ++ [NL] ++ rest = s ++ NL :: rest := by simp
  unfold ReadLine at herr ⊢
  rw [e, h] at herr
  rw [e, h]
  simp only [List.nil_append, List.append_nil] at herr ⊢
  by_cases hk : p.expectedFields = 0
  · rw [finishAtNewline_first p s rest hk] at herr
    simp at herr
  by_cases h2 : ((splitFields s).length : Int) = p.expectedFields
  · rw [finishAtNewline_match p s rest hk h2] at herr
    simp at herr
  rw [finishAtNewline_mismatch p s rest hk h2]
  refine ⟨rfl, rfl, rfl, rfl, ?_, h2, ?_⟩
  · simp [GetNumberOfFields, hw]
  · intro i hi
    simp [GetField, hw, hi]

theorem C16_ReadLine_no_rollback_witness :
    (ReadLine (ReadLine YourCSVParser.empty [97, 44, 98, 44, 99, 10]).p
        ([100, 44, 101] ++ [NL] ++ [])).p.Line = [100, 44, 101] ∧
      (ReadLine (ReadLine YourCSVParser.empty [97, 44, 98, 44, 99, 10]).p
        ([100, 44, 101] ++ [NL] ++ [])).p.expectedFields = 3 ∧
      GetNumberOfFields (ReadLine (ReadLine YourCSVParser.empty [97, 44, 98, 44, 99, 10]).p
        ([100, 44, 101] ++ [NL] ++ [])).p = 2 := by
  have h := C16_ReadLine_no_rollback (ReadLine YourCSVParser.empty [97, 44, 98, 44, 99, 10]).p
    [100, 44, 101] [] (by decide) (by decide) (by decide)
    (by
      intro i hi
      have hlt : i < 3 := by
        by_contra hge
        have : ([100, 44, 101] : List Byte).get? i = none :=
          List.get?_eq_none.mpr (by simpa using hge)
        rw [this] at hi
        exact absurd hi (by simp)
      interval_cases i <;> simp_all)
    (by decide)
  refine ⟨h.1, ?_, ?_⟩
  · rw [h.2.2.1]; decide
  · rw [h.2.2.2.2.1]; decide

/-- Bytes that are neither carriage return, newline nor quote, read outside
quotes, all end up in `line ++ currentField` in the order read. -/
theorem readLoop_plain (p : YourCSVParser) (x : List Byte)
    (hr : CR ∉ x) (hn : NL ∉ x) (hq : QUOTE ∉ x) :
    ∀ (rest cf line : List Byte), ∃ cf2 line2, line2 ++ cf2 = line ++ cf ++ x ∧
      readLoop p (x ++ rest) false cf line = readLoop p rest false cf2 line2 := by
  induction x with
  | nil => intro rest cf line; exact ⟨cf, line, by simp, rfl⟩
  | cons b x ih =>
    intro rest cf line
    have hbr : b ≠ CR := fun h => hr (by simp [h])
    have hbn : b ≠ NL := fun h => hn (by simp [h])
    have hbq : b ≠ QUOTE := fun h => hq (by simp [h])
    have hr2 : CR ∉ x := fun h => hr (List.mem_cons_of_mem _ h)
    have hn2 : NL ∉ x := fun h => hn (List.mem_cons_of_mem _ h)
    have hq2 : QUOTE ∉ x := fun h => hq (List.mem_cons_of_mem _ h)
    rw [List.cons_append, readLoop_cons, if_neg hbn, if_neg hbr]
    by_cases hbc : b = COMMA
    · subst hbc
      obtain ⟨cf2, line2, e, hrun⟩ := ih hr2 hn2 hq2 rest [] (line ++ cf ++ [COMMA])
      rw [if_pos rfl, if_pos rfl]
      exact ⟨cf2, line2, by rw [e]; simp, hrun⟩
    · obtain ⟨cf2, line2, e, hrun⟩ := ih hr2 hn2 hq2 rest (cf ++ [b]) line
      rw [if_neg hbc, if_neg hbq]
      exact ⟨cf2, line2, by rw [e]; simp, hrun⟩

theorem completeFrom_plain (y : List Byte) (hr : CR ∉ y) (hn : NL ∉ y) (hq : QUOTE ∉ y) :
    completeFrom false y = true := by
  induction y with
  | nil => rfl
  | cons b y ih =>
    have hbr : b ≠ CR := fun h => hr (by simp [h])
    have hbn : b ≠ NL := fun h => hn (by simp [h])
    have hbq : b ≠ QUOTE := fun h => hq (by simp [h])
    have := ih (fun h => hr (List.mem_cons_of_mem _ h)) (fun h => hn (List.mem_cons_of_mem _ h))
      (fun h => hq (List.mem_cons_of_mem _ h))
    simp [completeFrom, hbr, hbn, hbq, this]

/-- Claim C17: lone carriage return.  For `x`, `y` free of carriage return,
newline and quote and every byte `c` other than the newline, `ReadLine` on a
fresh parser with the stream `x ++ "\r" ++ [c] ++ y ++ "\n"` succeeds and
returns `x ++ "\r" ++ y`: the carriage return stays in the line and the
lookahead byte `c` is consumed and lost. -/
theorem C17_ReadLine_lone_cr (x y : List Byte) (c : Byte)
    (hx : CR ∉ x ∧ NL ∉ x ∧ QUOTE ∉ x) (hy : CR ∉ y ∧ NL ∉ y ∧ QUOTE ∉ y) (hc : c ≠ NL) :
    (ReadLine YourCSVParser.empty (x ++ [CR] ++ [c] ++ y ++ [NL])).err = none ∧
      (ReadLine YourCSVParser.empty (x ++ [CR] ++ [c] ++ y ++ [NL])).text = x ++ [CR] ++ y ∧
      (ReadLine YourCSVParser.empty (x ++ [CR] ++ [c] ++ y ++ [NL])).p.Line = x ++ [CR] ++ y ∧
      (ReadLine YourCSVParser.empty (x ++ [CR] ++ [c] ++ y ++ [NL])).rest = [] := by
  obtain ⟨cf2, line2, e, hrun⟩ :=
    readLoop_plain YourCSVParser.empty x hx.1 hx.2.1 hx.2.2 (CR :: c :: (y ++ [NL])) [] []
  have hy2 := readLoop_complete YourCSVParser.empty y [] false [] (line2 ++ cf2 ++ [CR])
    (completeFrom_plain y hy.1 hy.2.1 hy.2.2)
  have es : x ++ [CR] ++ [c] ++ y ++ [NL] = x ++ CR :: c :: (y ++ [NL]) := by simp
  have hfin : ReadLine YourCSVParser.empty (x ++ [CR] ++ [c] ++ y ++ [NL])
      = finishAtNewline YourCSVParser.empty (x ++ [CR] ++ y) [] := by
    unfold ReadLine
    rw [es, hrun, readLoop_cons, if_neg (by decide), if_pos rfl]
    show (if c = NL then _ else _) = _
    rw [if_neg hc, hy2, e]
    simp
  rw [hfin, finishAtNewline_first _ _ _ rfl]
  exact ⟨rfl, rfl, rfl, rfl⟩

theorem C17_ReadLine_lone_cr_witness :
    (ReadLine YourCSVParser.empty ([97, 44] ++ [CR] ++ [34] ++ [98] ++ [NL])).err = none ∧
      (ReadLine YourCSVParser.empty ([97, 44] ++ [CR] ++ [34] ++ [98] ++ [NL])).text
        = [97, 44] ++ [CR] ++ [98] ∧
      (ReadLine YourCSVParser.empty ([97, 44] ++ [CR] ++ [34] ++ [98] ++ [NL])).p.Line
        = [97, 44] ++ [CR] ++ [98] ∧
      (ReadLine YourCSVParser.empty ([97, 44] ++ [CR] ++ [34] ++ [98] ++ [NL])).rest = [] :=
  C17_ReadLine_lone_cr [97, 44] [98] 34 (by decide) (by decide) (by decide)

/-! ### Agreement of the two quote-tracking passes -/

theorem quoteScan_append (l m : List Byte) :
    ∀ (q : Bool), quoteScan q (l ++ m) = (quoteScan q l).bind (fun q2 => quoteScan q2 m) := by
  induction l with
  | nil => intro q; rfl
  | cons b l ih =>
    intro q
    simp only [List.cons_append, quoteScan]
    split_ifs <;> first | rfl | exact ih _

theorem quoteScan_counts (l : List Byte) :
    ∀ (q q2 : Bool), quoteScan q l = some q2 →
      (l.count QUOTE + q.toNat) % 2 = q2.toNat ∧
      (∀ i, l.get? i = some NL → ((l.take i).count QUOTE + q.toNat) % 2 = 1) := by
  induction l with
  | nil =>
    intro q q2 h
    have : q = q2 := by simpa [quoteScan] using h
    subst this
    refine ⟨by cases q <;> rfl, fun i hi => by simp at hi⟩
  | cons b l ih =>
    intro q q2 h
    by_cases hbq : b = QUOTE
    · subst hbq
      have h2 : quoteScan (!q) l = some q2 := by simpa [quoteScan] using h
      obtain ⟨h3, h4⟩ := ih (!q) q2 h2
      constructor
      · rw [List.count_cons_self, ← h3]
        cases q <;> (simp; try omega)
      · intro i hi
        cases i with
        | zero => simp at hi
        | succ i =>
          have := h4 i (by simpa using hi)
          rw [List.take_succ_cons, List.count_cons_self]
          cases q <;>
            simp only [Bool.not_false, Bool.not_true, Bool.toNat_true, Bool.toNat_false]
              at this ⊢ <;> omega
    · have hcnt : ∀ m : List Byte, (b :: m).count QUOTE = m.count QUOTE := by
        intro m; simp [List.count_cons, hbq]
      by_cases hbn : b = NL
      · subst hbn
        have h2 : q = true ∧ quoteScan q l = some q2 := by
          cases q <;> simp_all [quoteScan]
        obtain ⟨h3, h4⟩ := ih q q2 h2.2
        constructor
        · rw [hcnt]; exact h3
        · intro i hi
          cases i with
          | zero => simp [h2.1]
          | succ i =>
            have := h4 i (by simpa using hi)
            rw [List.take_succ_cons, hcnt]; exact this
      · have h2 : quoteScan q l = some q2 := by
          by_cases hbc : b = COMMA
          · simpa [quoteScan, hbc] using h
          · simpa [quoteScan, hbc, hbn, hbq] using h
        obtain ⟨h3, h4⟩ := ih q q2 h2
        constructor
        · rw [hcnt]; exact h3
        · intro i hi
          cases i with
          | zero => simp at hi; exact absurd hi hbn
          | succ i =>
            have := h4 i (by simpa using hi)
            rw [List.take_succ_cons, hcnt]; exact this

theorem finishAtNewline_Line (p : YourCSVParser) (line rest : List Byte) :
    (finishAtNewline p line rest).p.Line = line := by
  by_cases hk : p.expectedFields = 0
  · rw [finishAtNewline_first p line rest hk]
  by_cases h2 : ((splitFields line).length : Int) = p.expectedFields
  · rw [finishAtNewline_match p line rest hk h2]
  · rw [finishAtNewline_mismatch p line rest hk h2]

theorem finishAtEnd_Line (p : YourCSVParser) (cf line rest : List Byte) :
    (finishAtEnd p false cf line rest).p.Line = line ++ cf := by
  by_cases hk : p.expectedFields = 0
  · rw [finishAtEnd_first p cf line rest hk]
  by_cases h2 : ((splitFields (line ++ cf)).length : Int) = p.expectedFields
  · rw [finishAtEnd_match p cf line rest hk h2]
  · rw [finishAtEnd_mismatch p cf line rest hk h2]

/-- The reader keeps `inQuote` equal to the quote state the splitter would be
in after the bytes gathered so far, and never gathers an unquoted newline. -/
theorem readLoop_quotes (p : YourCSVParser) :
    ∀ (n : Nat) (stream : List Byte), stream.length ≤ n →
      ∀ (q : Bool) (cf line : List Byte), quoteScan false (line ++ cf) = some q →
        (readLoop p stream q cf line).err = none →
        quoteScan false (readLoop p stream q cf line).p.Line = some false := by
  intro n
  induction n with
  | zero =>
    intro stream hlen q cf line hinv hok
    have : stream = [] := List.length_eq_zero.mp (Nat.le_zero.mp hlen)
    subst this
    rw [readLoop_nil] at hok ⊢
    by_cases h0 : line.length = 0
    · rw [if_pos h0] at hok; simp at hok
    · rw [if_neg h0] at hok ⊢
      cases q
      · rw [finishAtEnd_Line]; exact hinv
      · rw [finishAtEnd_quote] at hok; simp at hok
  | succ n ih =>
    intro stream hlen q cf line hinv hok
    cases stream with
    | nil =>
      rw [readLoop_nil] at hok ⊢
      by_cases h0 : line.length = 0
      · rw [if_pos h0] at hok; simp at hok
      · rw [if_neg h0] at hok ⊢
        cases q
        · rw [finishAtEnd_Line]; exact hinv
        · rw [finishAtEnd_quote] at hok; simp at hok
    | cons char rest =>
      have hrest : rest.length ≤ n := by simpa using hlen
      have hstep : ∀ (b : Byte) (q2 : Bool), quoteScan q [b] = some q2 →
          quoteScan false (line ++ (cf ++ [b])) = some q2 := by
        intro b q2 hb
        rw [← List.append_assoc, quoteScan_append, hinv]
        exact hb
      rw [readLoop_cons] at hok ⊢
      by_cases h1 : char = NL
      · subst h1
        rw [if_pos rfl] at hok ⊢
        cases q
        · rw [if_pos rfl, finishAtNewline_Line]; exact hinv
        · rw [if_neg (by decide)] at hok ⊢
          exact ih rest hrest _ _ _ (hstep NL true (by decide)) hok
      rw [if_neg h1] at hok ⊢
      by_cases h2 : char = CR
      · subst h2
        rw [if_pos rfl] at hok ⊢
        cases rest with
        | nil => simp at hok
        | cons next rest2 =>
          have hrest2 : rest2.length ≤ n := by
            have : rest2.length + 1 ≤ n := by simpa using hrest
            omega
          dsimp only at hok ⊢
          by_cases h3 : next = NL
          · rw [if_pos h3] at hok ⊢
            exact ih rest2 hrest2 _ _ _ hinv hok
          · rw [if_neg h3] at hok ⊢
            refine ih rest2 hrest2 _ _ _ ?_ hok
            have : quoteScan q [CR] = some q := by cases q <;> decide
            simpa using hstep CR q this
      rw [if_neg h2] at hok ⊢
      by_cases h3 : char = COMMA
      · subst h3
        rw [if_pos rfl] at hok ⊢
        have hc : quoteScan q [COMMA] = some q := by cases q <;> decide
        cases q
        · rw [if_pos rfl] at hok ⊢
          refine ih rest hrest _ _ _ ?_ hok
          simpa using hstep COMMA false hc
        · rw [if_neg (by decide)] at hok ⊢
          exact ih rest hrest _ _ _ (hstep COMMA true hc) hok
      rw [if_neg h3] at hok ⊢
      by_cases h4 : char = QUOTE
      · subst h4
        rw [if_pos rfl] at hok ⊢
        exact ih rest hrest _ _ _ (hstep QUOTE (!q) (by cases q <;> decide)) hok
      · rw [if_neg h4] at hok ⊢
        refine ih rest hrest _ _ _ (hstep char q ?_) hok
        simp [quoteScan, h1, h3, h4]

/-- Claim C20: after every successful `ReadLine`, on any stream, `Line` holds
an even number of quote bytes and every newline byte of `Line` is preceded in
`Line` by an odd number of quote bytes; hence the quote tracking of the
splitter runs over `Line` without meeting an unquoted newline and ends
outside quotes. -/
theorem C20_ReadLine_quotes_agree (p : YourCSVParser) (stream : List Byte)
    (hok : (ReadLine p stream).err = none) :
    (ReadLine p stream).p.Line.count QUOTE % 2 = 0 ∧
      (∀ i, (ReadLine p stream).p.Line.get? i = some NL →
        ((ReadLine p stream).p.Line.take i).count QUOTE % 2 = 1) ∧
      quoteScan false (ReadLine p stream).p.Line = some false := by
  have h := readLoop_quotes p stream.length stream (Nat.le_refl _) false [] [] rfl hok
  have hc := quoteScan_counts _ false false h
  exact ⟨by simpa using hc.1, by simpa using hc.2, h⟩

theorem C20_ReadLine_quotes_agree_witness :
    (ReadLine YourCSVParser.empty [34, 97, 10, 34, 44, 13, 34, 98, 10]).p.Line.count QUOTE % 2 = 0 ∧
      (∀ i, (ReadLine YourCSVParser.empty [34, 97, 10, 34, 44, 13, 34, 98, 10]).p.Line.get? i
          = some NL →
        ((ReadLine YourCSVParser.empty [34, 97, 10, 34, 44, 13, 34, 98, 10]).p.Line.take i).count
          QUOTE % 2 = 1) ∧
      quoteScan false (ReadLine YourCSVParser.empty [34, 97, 10, 34, 44, 13, 34, 98, 10]).p.Line
        = some false :=
  C20_ReadLine_quotes_agree YourCSVParser.empty [34, 97, 10, 34, 44, 13, 34, 98, 10] (by decide)

end CSV
